import Mathlib

/-!
Verification development for the ImpostorBot text-generation pipeline.

Shallow embedding of:
* `src/src/rnn/RnnTextPredictor.ts` (character-level variant: `buildVocabulary`,
  `sampleFromPrediction`, `export`/`import`, and the v1 `padSequences`),
* the sequence encoder `pad` of the word-level predictor variant
  (`unnamed/part_002`),
* the generation orchestrator `predictText` of
  `src/src/rnn/DiscordTextGenerator.ts` together with the `messages`/`models`
  tables of the SQL schema (`unnamed/part_000`).

JS numbers used as temperatures are modelled as rationals; JS objects used as
token tables are modelled as association lists with overwrite-on-assign
semantics; the opaque TensorFlow backend is modelled by its serialized
artifacts (a loaded model is determined by the artifacts it was loaded from,
the backend being deterministic under fixed backend state).
-/

namespace ImpostorBot

/-- Lookup in an association list, first binding wins (JS object property
read). -/
def alookup {α β : Type} [DecidableEq α] : List (α × β) → α → Option β
  | [], _ => none
  | (k, v) :: rest, key => if k = key then some v else alookup rest key

/-- JS object property assignment `obj[k] = v`: overwrite the existing binding
if present, otherwise append a new one (insertion order preserved). -/
def upsert {α β : Type} [DecidableEq α] : List (α × β) → α → β → List (α × β)
  | [], key, val => [(key, val)]
  | (k, v) :: rest, key, val =>
    if k = key then (key, val) :: rest else (k, v) :: upsert rest key val

/-- `TokenizedData` of the character-level `RnnTextPredictor`
(`src/src/rnn/RnnTextPredictor.ts`): a `Set<string>` of seen characters and
the two JS-object index tables. -/
structure TokenizedData where
  vocabulary : List Char
  charToIndex : List (Char × Nat)
  indexToChar : List (Nat × Char)
deriving DecidableEq, Repr

/-- One iteration of the `buildVocabulary` loop at position `p.1` holding
character `p.2`: `vocabulary.add(char)`, `charToIndex[char] = i`,
`indexToChar[i] = char`. -/
def vocabStep (td : TokenizedData) (p : Nat × Char) : TokenizedData :=
  { vocabulary :=
      if p.2 ∈ td.vocabulary then td.vocabulary else td.vocabulary ++ [p.2]
    charToIndex := upsert td.charToIndex p.2 p.1
    indexToChar := upsert td.indexToChar p.1 p.2 }

/-- `buildVocabulary(text)` of the character-level `RnnTextPredictor`
(lines 285-298): iterate over every character position of the training text.
-/
def buildVocabulary (text : List Char) : TokenizedData :=
  text.enum.foldl vocabStep ⟨[], [], []⟩

/-- `Set.add` on the insertion-ordered character set: append the character
unless it is already present (the vocabulary field of one `vocabStep`). -/
def insertAbsent (v : List Char) (c : Char) : List Char :=
  if c ∈ v then v else v ++ [c]

/-- Reference definition (for the amended C4 statement): the distinct
characters of a list in order of first appearance — each character is listed
at its first occurrence and every later duplicate is dropped. -/
def dedupFirst : List Char → List Char
  | [] => []
  | c :: rest => c :: (dedupFirst rest).filter (fun x => x != c)

/-- The serialized artifact triple captured by `tf.io.withSaveHandler`. -/
structure ModelArtifacts where
  modelTopology : String
  weightSpecs : List String
  weightData : List Nat
deriving DecidableEq, Repr

/-- In-memory backend model. The opaque TensorFlow model is represented by
the serialized state that determines it (topology, weight specs, weight
blob) plus its `built` flag. -/
structure BackendModel where
  topology : String
  weightSpecs : List String
  weightData : List Nat
  built : Bool
deriving DecidableEq, Repr

/-- `ExportedModel` of the character-level predictor: artifact triple plus
`tokenizedData`. -/
structure ExportedModel where
  modelTopology : String
  weightSpecs : List String
  weightData : List Nat
  tokenizedData : TokenizedData
deriving DecidableEq, Repr

/-- An `RnnTextPredictor` instance: `model` and `tokenizedData` fields, both
nullable. -/
structure RnnPredictor where
  model : Option BackendModel
  tokenizedData : Option TokenizedData
deriving DecidableEq, Repr

/-- `model.save(withSaveHandler(...))`: the handler captures the model's
serialized artifacts. -/
def saveArtifacts (m : BackendModel) : ModelArtifacts :=
  ⟨m.topology, m.weightSpecs, m.weightData⟩

/-- `tf.io.fromMemory(model)`: wrap the exported data as in-memory model
artifacts. -/
def fromMemory (em : ExportedModel) : ModelArtifacts :=
  ⟨em.modelTopology, em.weightSpecs, em.weightData⟩

/-- `tf.loadLayersModel(modelIo)`: the backend reconstructs a (built) model
from exactly the serialized artifacts; under fixed backend state the result
is determined by the artifacts. -/
def loadLayersModel (a : ModelArtifacts) : BackendModel :=
  ⟨a.modelTopology, a.weightSpecs, a.weightData, true⟩

/-- `export()` (lines 353-382): fails unless `this.model?.built` and
`this.tokenizedData` are set; otherwise returns the captured artifacts
together with the tokenized data. -/
def rnnExport (p : RnnPredictor) : Option ExportedModel :=
  match p.model, p.tokenizedData with
  | some m, some td =>
    if m.built then
      some ⟨(saveArtifacts m).modelTopology, (saveArtifacts m).weightSpecs,
        (saveArtifacts m).weightData, td⟩
    else none
  | _, _ => none

/-- `import(model)` (lines 384-388) on a fresh instance: rebuild the backend
model from the exported artifacts and restore `tokenizedData`. -/
def rnnImport (em : ExportedModel) : RnnPredictor :=
  ⟨some (loadLayersModel (fromMemory em)), some em.tokenizedData⟩

/-- The next-token distribution of a predictor under a fixed backend decode
semantics `f` (one forward pass plus decoding through the token tables);
`none` when the instance is not trained/imported. -/
def nextTokenDistUnder (f : BackendModel → TokenizedData → List Nat → List ℚ)
    (p : RnnPredictor) (ctx : List Nat) : Option (List ℚ) :=
  match p.model, p.tokenizedData with
  | some m, some td => some (f m td ctx)
  | _, _ => none

/-- The scaling divisor of `sampleFromPrediction` (line 343):
`Math.max(temperature, 1e-6)`. -/
def sampleDivisor (t : ℚ) : ℚ := max t (1 / 1000000)

/-- The rescaling of one log-probability inside `sampleFromPrediction`:
`tf.div(tf.log(prediction), Math.max(temperature, 1e-6))` applied to a single
logit value. -/
def sampleScale (t : ℚ) (logit : ℚ) : ℚ := logit / sampleDivisor t

/-- `padSequences(sequence, {maxlen})` of the v1 `RnnTextPredictor`
(lines 82-96), acting on one sequence: shorter sequences get `' '` padding
appended up to `maxlen`; otherwise `sequence.slice(0, maxlen)`. -/
def padSequences (maxlen : Nat) (sequence : List Char) : List Char :=
  if sequence.length < maxlen then
    sequence ++ List.replicate (maxlen - sequence.length) ' '
  else sequence.take maxlen

/-- The reserved pad token `'\0'` of the word-level sequence encoder. -/
def nulTok : String := "\x00"

/-- `pad(str)` of the word-level predictor variant (`unnamed/part_002`,
lines 469-482), with the stored window length `padSize` passed explicitly:
`str.slice(0, length)` when long enough, else append `'\0'` fill. -/
def pad (padSize : Nat) (str : List String) : List String :=
  if str.length ≥ padSize then str.take padSize
  else str ++ List.replicate (padSize - str.length) nulTok

/-- A row of the `messages` table (schema in `unnamed/part_000`). -/
structure MessageRow where
  message_id : Nat
  guild_id : Nat
  user_id : Nat
  channel_id : Nat
  content : String
  time : Nat
deriving DecidableEq, Repr

/-- A row of the `models` table. The serialized payload columns
(`model_topology`, `weight_specs`, `weight_data`, `tokenized_data`) are
carried by every row but `predictText` never branches on their contents
(they are only JSON-parsed into an imported model), so they are elided
from the row representation. -/
structure ModelRow where
  id : Nat
  last_message_id : Nat
  guild_id : Nat
  user_id : Option Nat
  update_time : Nat
deriving DecidableEq, Repr

/-- The database: `messages` and `models` tables. -/
structure Db where
  messages : List MessageRow
  models : List ModelRow
deriving DecidableEq, Repr

/-- A generation request as seen by `predictText`: the effective guild id
(`guildId || channel.guild.id`), the optional target user, the optional seed
`query`, and the store clock used for the `update_time` of a row created by
this request (the column is filled by the database on insert). -/
structure Request where
  guildId : Nat
  userId : Option Nat
  query : Option String
  now : Nat
deriving DecidableEq, Repr

/-- The `where` clause of the `DbMessages` queries:
`guild_id = guildId || channel.guild.id` and
`user_id = userId || {[Op.ne]: null}` (a non-null column always satisfies
`Op.ne null`). -/
def msgMatches (req : Request) (m : MessageRow) : Bool :=
  m.guild_id == req.guildId &&
    match req.userId with
    | some u => m.user_id == u
    | none => true

/-- The `where` clause of the `DbModels` query: same key, except that
`models.user_id` is nullable and `{[Op.ne]: null}` rejects null. -/
def modelMatches (req : Request) (r : ModelRow) : Bool :=
  r.guild_id == req.guildId &&
    match req.userId with
    | some u => r.user_id == some u
    | none => !r.user_id.isNone

/-- `findOne` with `order: [[col, 'DESC']]`: the row maximizing `f` (first
such row; the database order among ties is unspecified and refined here to
the list order). -/
def pickMaxBy {α : Type} (f : α → Nat) : List α → Option α
  | [] => none
  | x :: xs =>
    match pickMaxBy f xs with
    | none => some x
    | some y => if f y > f x then some y else some x

/-- `DbModels.findOne({where: key, order: [['id', 'DESC']]})`. -/
def findDbModel (db : Db) (req : Request) : Option ModelRow :=
  pickMaxBy (fun r => r.id) (db.models.filter (modelMatches req))

/-- `DbMessages.findOne({where: key, order: [['time', 'DESC']]})`. -/
def findLastKnown (db : Db) (req : Request) : Option MessageRow :=
  pickMaxBy (fun m => m.time) (db.messages.filter (msgMatches req))

/-- `DbMessages.count({where: {key, time: {[Op.gt]: dbModel.update_time}}})`:
messages of the author newer than the artifact's training time. -/
def staleCount (db : Db) (req : Request) (row : ModelRow) : Nat :=
  (db.messages.filter
    (fun m => msgMatches req m && decide (row.update_time < m.time))).length

/-- The staleness decision of `predictText` (lines 140-159): the cached row
is discarded exactly when its `last_message_id` differs from the newest
known message id and more than 5000 newer messages exist. -/
def isStaleRow (db : Db) (req : Request) (lm : MessageRow) (row : ModelRow) :
    Bool :=
  row.last_message_id != lm.message_id &&
    decide (5000 < staleCount db req row)

/-- The value of `dbModel` after the staleness check: the found row unless
it was judged stale. -/
def resolvedModel (db : Db) (req : Request) (lm : MessageRow) :
    Option ModelRow :=
  match findDbModel db req with
  | none => none
  | some row => if isStaleRow db req lm row then none else some row

/-- The value of `oldModel` after the staleness check: the found row exactly
when it was judged stale. -/
def oldModelOf (db : Db) (req : Request) (lm : MessageRow) : Option ModelRow :=
  match findDbModel db req with
  | none => none
  | some row => if isStaleRow db req lm row then some row else none

/-- `commandPrefixes = ['!', '?', '-', '+', '@', '#', '$', '%', '&']`
(line 184). -/
def commandMarkers : List String :=
  ["!", "?", "-", "+", "@", "#", "$", "%", "&"]

/-- JS `x.startsWith(p)`: the characters of `p` are an initial segment of
the characters of `x`. -/
def strStartsWith (x p : String) : Bool :=
  p.data.isPrefixOf x.data

/-- `commandPrefixes.some(prefix => x.startsWith(prefix) && x.length > 2)`
(line 191). -/
def isCommandLike (x : String) : Bool :=
  commandMarkers.any (fun p => strStartsWith x p && decide (2 < x.length))

/-- The retraining corpus (lines 176-192): fetch the author's messages with
`content != ''`, map to contents, drop falsy/empty strings, drop
command-like messages. -/
def corpusOf (db : Db) (req : Request) : List String :=
  (((db.messages.filter
        (fun m => msgMatches req m && m.content != "")).map
      (fun m => m.content)).filter (fun x => x != "")).filter
    (fun x => !isCommandLike x)

/-- Largest `id` in a list of model rows (0 when empty). -/
def maxId (l : List ModelRow) : Nat :=
  l.foldl (fun a r => max a r.id) 0

/-- The `serial` id assigned to a freshly inserted `models` row. -/
def nextId (l : List ModelRow) : Nat := maxId l + 1

/-- The row inserted by `DbModels.create` (lines 237-245): the request key,
the newest known message id as watermark, a fresh serial id, and the
database clock as `update_time`. -/
def mkNewRow (db : Db) (req : Request) (lm : MessageRow) : ModelRow :=
  { id := nextId db.models
    last_message_id := lm.message_id
    guild_id := req.guildId
    user_id := req.userId
    update_time := req.now }

/-- Observable side effects of one `predictText` run, in program order:
model lifecycle calls on the `RnnTextPredictor` instance and writes to the
`models` table. -/
inductive TraceEvent where
  | importModel
  | train
  | exportModel
  | createRow (r : ModelRow)
  | destroyRow (id : Nat)
  | generate
  | dispose
deriving DecidableEq, Repr

/-- Outcome of `predictText`: a no-data failure (`return null` after the
error follow-up) or generated text, tagged with whether the cached artifact
was used. The generated string itself depends on backend sampling randomness
and is abstracted away. -/
inductive GenResult where
  | noData
  | generated (usedCache : Bool)
deriving DecidableEq, Repr

/-- Result, final database, and event trace of one `predictText` run. -/
structure PredictOutcome where
  result : GenResult
  db : Db
  trace : List TraceEvent
deriving DecidableEq, Repr

/-- `predictText` of `src/src/rnn/DiscordTextGenerator.ts` (lines 95-262):
resolve the newest known message, run the staleness check on the cached
model row, then either import the cached artifact or fetch the filtered
corpus, train, export, `DbModels.create` the new row and `destroy` the
stale one, and finally generate. Discord UI side effects (follow-ups,
progress edits, webhooks) are elided. -/
def predictText (db : Db) (req : Request) : PredictOutcome :=
  match findLastKnown db req with
  | none => ⟨.noData, db, []⟩
  | some lm =>
    match resolvedModel db req lm with
    | some _ => ⟨.generated true, db, [.importModel, .generate]⟩
    | none =>
      if corpusOf db req = [] then ⟨.noData, db, []⟩
      else
        match oldModelOf db req lm with
        | some old =>
          ⟨.generated false,
            ⟨db.messages,
              (db.models ++ [mkNewRow db req lm]).filter
                (fun r => r.id != old.id)⟩,
            [.train, .exportModel, .createRow (mkNewRow db req lm),
              .destroyRow old.id, .generate]⟩
        | none =>
          ⟨.generated false, ⟨db.messages, db.models ++ [mkNewRow db req lm]⟩,
            [.train, .exportModel, .createRow (mkNewRow db req lm),
              .generate]⟩

/-- Effect of one trace event on the `models` table (non-store events leave
it unchanged). -/
def applyEvent (models : List ModelRow) : TraceEvent → List ModelRow
  | .createRow r => models ++ [r]
  | .destroyRow i => models.filter (fun m => m.id != i)
  | _ => models

/-- The `models` table after a prefix of the trace has executed. -/
def storeAfter (models : List ModelRow) (tr : List TraceEvent) :
    List ModelRow :=
  tr.foldl applyEvent models

/-! Concrete states used by witnesses and counterexamples. -/

/-- A cached model row for author 5 in guild 1, trained at watermark 10. -/
def rowA : ModelRow := ⟨1, 10, 1, some 5, 50⟩

/-- An ordinary message of author 5. -/
def msgA : MessageRow := ⟨10, 1, 5, 7, "hello world", 100⟩

/-- State with one ordinary message and a fresh cached model. -/
def dbA : Db := ⟨[msgA], [rowA]⟩

/-- A request for author 5 in guild 1 with no seed text. -/
def reqA : Request := ⟨1, some 5, none, 200⟩

/-- A command-like message (`'!'` marker, length over 2) of author 5. -/
def msgB : MessageRow := ⟨10, 1, 5, 7, "!abc", 100⟩

/-- State whose only message for author 5 is command-like, while a fresh
cached model row exists for the author. -/
def dbB : Db := ⟨[msgB], [rowA]⟩

/-- The same request against `dbB`. -/
def reqB : Request := ⟨1, some 5, none, 200⟩

/-- A state with no messages at all. -/
def dbEmpty : Db := ⟨[], []⟩

/-- A request for an author with no stored messages. -/
def reqEmpty : Request := ⟨1, some 5, none, 200⟩

/-- A short command-marker message ("!a", length 2). -/
def msgF : MessageRow := ⟨11, 1, 5, 7, "!a", 90⟩

/-- State holding the short command-marker message. -/
def dbF : Db := ⟨[msgF], []⟩

/-- Request for the author of `msgF`. -/
def reqF : Request := ⟨1, some 5, none, 200⟩

/-- A trained backend model used by the round-trip witness. -/
def bmC : BackendModel := ⟨"topo", ["spec0", "spec1"], [1, 2, 3], true⟩

/-- Tokenized data used by the round-trip witness. -/
def tdC : TokenizedData := buildVocabulary ['h', 'i']

/-- A trained predictor instance. -/
def predC : RnnPredictor := ⟨some bmC, some tdC⟩

/-! Association-list and vocabulary-fold lemmas. -/

theorem alookup_upsert {α β : Type} [DecidableEq α] (l : List (α × β))
    (key : α) (val : β) (k : α) :
    alookup (upsert l key val) k =
      if k = key then some val else alookup l k := by
  have hsymm : ∀ a b : α, ¬(a = b) → ¬(b = a) := fun a b h hh => h hh.symm
  induction l with
  | nil =>
    by_cases hk : k = key
    · subst hk; simp [upsert, alookup]
    · simp [upsert, alookup, hk, hsymm k key hk]
  | cons p rest ih =>
    obtain ⟨k0, v0⟩ := p
    by_cases h0 : k0 = key
    · subst h0
      by_cases hk : k = k0
      · subst hk; simp [upsert, alookup]
      · simp [upsert, alookup, hk, hsymm k k0 hk]
    · by_cases h1 : k0 = k
      · subst h1
        simp [upsert, alookup, h0]
      · simp [upsert, alookup, h0, h1, ih]

theorem vocab_fold_mem (l : List (Nat × Char)) :
    ∀ (td : TokenizedData) (c : Char),
      c ∈ (l.foldl vocabStep td).vocabulary ↔
        c ∈ td.vocabulary ∨ c ∈ l.map Prod.snd := by
  induction l with
  | nil => intro td c; simp
  | cons p rest ih =>
    intro td c
    rw [List.foldl_cons, ih]
    simp only [vocabStep, List.map_cons, List.mem_cons]
    by_cases hc : p.2 ∈ td.vocabulary
    · simp only [if_pos hc]
      constructor
      · tauto
      · rintro (h | rfl | h) <;> tauto
    · simp only [if_neg hc, List.mem_append, List.mem_singleton]
      tauto

theorem charToIndex_fold_not_mem (l : List (Nat × Char)) :
    ∀ (td : TokenizedData) (c : Char), c ∉ l.map Prod.snd →
      alookup (l.foldl vocabStep td).charToIndex c =
        alookup td.charToIndex c := by
  induction l with
  | nil => intro td c _; rfl
  | cons p rest ih =>
    intro td c hc
    simp only [List.map_cons, List.mem_cons, not_or] at hc
    rw [List.foldl_cons, ih _ _ hc.2]
    simp only [vocabStep]
    rw [alookup_upsert, if_neg hc.1]

theorem charToIndex_fold_mem (l : List (Nat × Char)) :
    ∀ (td : TokenizedData) (c : Char), c ∈ l.map Prod.snd →
      ∃ i, alookup (l.foldl vocabStep td).charToIndex c = some i ∧
        (i, c) ∈ l := by
  induction l with
  | nil => intro td c h; simp at h
  | cons p rest ih =>
    intro td c hc
    rw [List.foldl_cons]
    by_cases hr : c ∈ rest.map Prod.snd
    · obtain ⟨i, hi, hmem⟩ := ih (vocabStep td p) c hr
      exact ⟨i, hi, List.mem_cons_of_mem _ hmem⟩
    · have hcp : c = p.2 := by
        simp only [List.map_cons, List.mem_cons] at hc
        tauto
      rw [charToIndex_fold_not_mem rest _ c hr]
      subst hcp
      refine ⟨p.1, ?_, ?_⟩
      · simp only [vocabStep]
        rw [alookup_upsert, if_pos rfl]
      · exact List.mem_cons_self p rest

theorem indexToChar_fold_not_mem (l : List (Nat × Char)) :
    ∀ (td : TokenizedData) (i : Nat), i ∉ l.map Prod.fst →
      alookup (l.foldl vocabStep td).indexToChar i =
        alookup td.indexToChar i := by
  induction l with
  | nil => intro td i _; rfl
  | cons p rest ih =>
    intro td i hi
    simp only [List.map_cons, List.mem_cons, not_or] at hi
    rw [List.foldl_cons, ih _ _ hi.2]
    simp only [vocabStep]
    rw [alookup_upsert, if_neg hi.1]

theorem indexToChar_fold_mem (l : List (Nat × Char)) :
    ∀ (td : TokenizedData) (i : Nat) (c : Char), (i, c) ∈ l →
      (l.map Prod.fst).Nodup →
      alookup (l.foldl vocabStep td).indexToChar i = some c := by
  induction l with
  | nil => intro td i c h _; simp at h
  | cons p rest ih =>
    intro td i c hmem hnd
    simp only [List.map_cons, List.nodup_cons] at hnd
    rw [List.foldl_cons]
    rcases List.mem_cons.mp hmem with heq | hrest
    · have hi : i = p.1 := congrArg Prod.fst heq
      have hc : c = p.2 := congrArg Prod.snd heq
      have hnotin : i ∉ rest.map Prod.fst := by rw [hi]; exact hnd.1
      rw [indexToChar_fold_not_mem rest _ i hnotin]
      simp only [vocabStep]
      rw [alookup_upsert, if_pos hi, hc]
    · exact ih _ i c hrest hnd.2

theorem vocab_fold_insertAbsent (l : List (Nat × Char)) :
    ∀ td : TokenizedData,
      (l.foldl vocabStep td).vocabulary =
        (l.map Prod.snd).foldl insertAbsent td.vocabulary := by
  induction l with
  | nil => intro td; rfl
  | cons p rest ih =>
    intro td
    rw [List.foldl_cons, List.map_cons, List.foldl_cons, ih]
    rfl

theorem foldl_insertAbsent_eq (s : List Char) :
    ∀ v : List Char,
      s.foldl insertAbsent v =
        v ++ (dedupFirst s).filter (fun x => decide (x ∉ v)) := by
  induction s with
  | nil => intro v; simp [dedupFirst]
  | cons c rest ih =>
    intro v
    rw [List.foldl_cons]
    by_cases hc : c ∈ v
    · rw [show insertAbsent v c = v from if_pos hc, ih]
      simp only [dedupFirst]
      rw [List.filter_cons_of_neg (by simp [hc]), List.filter_filter]
      congr 1
      apply List.filter_congr
      intro x hx
      by_cases hxv : x ∈ v
      · simp [hxv]
      · have hxc : (x != c) = true := bne_iff_ne.mpr (fun h => hxv (h ▸ hc))
        simp [hxv, hxc]
    · rw [show insertAbsent v c = v ++ [c] from if_neg hc, ih]
      simp only [dedupFirst]
      rw [List.filter_cons_of_pos (by simp [hc]), List.filter_filter,
        List.append_assoc, List.singleton_append]
      congr 2
      apply List.filter_congr
      intro x hx
      by_cases h1 : x ∈ v
      · simp [List.mem_append, h1]
      · by_cases h2 : x = c
        · subst h2
          simp [List.mem_append, h1]
        · simp [List.mem_append, h1, h2, bne_iff_ne]

theorem buildVocabulary_vocab_eq (text : List Char) :
    (buildVocabulary text).vocabulary = dedupFirst text := by
  rw [buildVocabulary, vocab_fold_insertAbsent, List.enum_map_snd,
    foldl_insertAbsent_eq]
  simp

theorem charToIndex_fold_last (l : List (Nat × Char)) :
    ∀ (td : TokenizedData) (c : Char),
      (l.map Prod.fst).Pairwise (· < ·) → c ∈ l.map Prod.snd →
      ∃ i, alookup (l.foldl vocabStep td).charToIndex c = some i ∧
        (i, c) ∈ l ∧ ∀ j, (j, c) ∈ l → j ≤ i := by
  induction l with
  | nil => intro td c _ h; simp at h
  | cons p rest ih =>
    intro td c hpw hc
    simp only [List.map_cons] at hpw
    obtain ⟨hlt, hpw2⟩ := List.pairwise_cons.mp hpw
    rw [List.foldl_cons]
    by_cases hr : c ∈ rest.map Prod.snd
    · obtain ⟨i, hi, hmem, hmax⟩ := ih (vocabStep td p) c hpw2 hr
      refine ⟨i, hi, List.mem_cons_of_mem _ hmem, ?_⟩
      intro j hj
      rcases List.mem_cons.mp hj with heq | hjr
      · have hj1 : j = p.1 := congrArg Prod.fst heq
        have hip : p.1 < i := hlt i (List.mem_map_of_mem Prod.fst hmem)
        omega
      · exact hmax j hjr
    · have hcp : c = p.2 := by
        simp only [List.map_cons, List.mem_cons] at hc
        tauto
      subst hcp
      rw [charToIndex_fold_not_mem rest _ _ hr]
      refine ⟨p.1, ?_, ?_, ?_⟩
      · simp only [vocabStep]
        rw [alookup_upsert, if_pos rfl]
      · exact List.mem_cons_self p rest
      · intro j hj
        rcases List.mem_cons.mp hj with heq | hjr
        · have hj1 : j = p.1 := congrArg Prod.fst heq
          omega
        · exact absurd (List.mem_map_of_mem Prod.snd hjr) hr

/-! Orchestrator helper lemmas. -/

theorem pickMaxBy_mem {α : Type} (f : α → Nat) (l : List α) (x : α)
    (h : pickMaxBy f l = some x) : x ∈ l := by
  induction l generalizing x with
  | nil => simp [pickMaxBy] at h
  | cons a as ih =>
    simp only [pickMaxBy] at h
    cases hp : pickMaxBy f as with
    | none =>
      rw [hp] at h
      dsimp only at h
      obtain rfl := Option.some.inj h
      exact List.mem_cons_self _ _
    | some y =>
      rw [hp] at h
      dsimp only at h
      by_cases hf : f y > f a
      · rw [if_pos hf] at h
        obtain rfl := Option.some.inj h
        exact List.mem_cons_of_mem _ (ih _ hp)
      · rw [if_neg hf] at h
        obtain rfl := Option.some.inj h
        exact List.mem_cons_self _ _

theorem findDbModel_mem (db : Db) (req : Request) (row : ModelRow)
    (h : findDbModel db req = some row) :
    row ∈ db.models ∧ modelMatches req row = true :=
  List.mem_filter.mp (pickMaxBy_mem _ _ _ h)

theorem oldModelOf_eq (db : Db) (req : Request) (lm : MessageRow)
    (old : ModelRow) (h : oldModelOf db req lm = some old) :
    findDbModel db req = some old ∧ isStaleRow db req lm old = true := by
  unfold oldModelOf at h
  cases hf : findDbModel db req with
  | none => rw [hf] at h; cases h
  | some row =>
    rw [hf] at h
    dsimp only at h
    split_ifs at h with hs
    obtain rfl := Option.some.inj h
    exact ⟨rfl, hs⟩

theorem foldl_max_le_init (l : List ModelRow) :
    ∀ a : Nat, a ≤ l.foldl (fun a r => max a r.id) a := by
  induction l with
  | nil => intro a; exact le_refl a
  | cons r rest ih =>
    intro a
    exact le_trans (le_max_left a r.id) (ih (max a r.id))

theorem mem_id_le_foldl (l : List ModelRow) :
    ∀ (a : Nat) (r : ModelRow), r ∈ l →
      r.id ≤ l.foldl (fun a r => max a r.id) a := by
  induction l with
  | nil => intro a r h; simp at h
  | cons x rest ih =>
    intro a r h
    rcases List.mem_cons.mp h with rfl | hr
    · exact le_trans (le_max_right a r.id) (foldl_max_le_init rest _)
    · exact ih (max a x.id) r hr

theorem mem_id_lt_nextId (l : List ModelRow) (r : ModelRow) (h : r ∈ l) :
    r.id < nextId l :=
  Nat.lt_succ_of_le (mem_id_le_foldl l 0 r h)

theorem predictText_branches (db : Db) (req : Request) :
    (findLastKnown db req = none ∧ predictText db req = ⟨.noData, db, []⟩) ∨
    (∃ lm row, findLastKnown db req = some lm ∧
      resolvedModel db req lm = some row ∧
      predictText db req = ⟨.generated true, db, [.importModel, .generate]⟩) ∨
    (∃ lm, findLastKnown db req = some lm ∧
      resolvedModel db req lm = none ∧ corpusOf db req = [] ∧
      predictText db req = ⟨.noData, db, []⟩) ∨
    (∃ lm, findLastKnown db req = some lm ∧
      resolvedModel db req lm = none ∧ corpusOf db req ≠ [] ∧
      oldModelOf db req lm = none ∧
      predictText db req =
        ⟨.generated false, ⟨db.messages, db.models ++ [mkNewRow db req lm]⟩,
          [.train, .exportModel, .createRow (mkNewRow db req lm),
            .generate]⟩) ∨
    (∃ lm old, findLastKnown db req = some lm ∧
      resolvedModel db req lm = none ∧ corpusOf db req ≠ [] ∧
      oldModelOf db req lm = some old ∧
      predictText db req =
        ⟨.generated false,
          ⟨db.messages,
            (db.models ++ [mkNewRow db req lm]).filter
              (fun r => r.id != old.id)⟩,
          [.train, .exportModel, .createRow (mkNewRow db req lm),
            .destroyRow old.id, .generate]⟩) := by
  cases hlk : findLastKnown db req with
  | none => exact Or.inl ⟨rfl, by simp [predictText, hlk]⟩
  | some lm =>
    cases hrm : resolvedModel db req lm with
    | some row =>
      exact Or.inr (Or.inl ⟨lm, row, rfl, hrm, by simp [predictText, hlk, hrm]⟩)
    | none =>
      by_cases hc : corpusOf db req = []
      · exact Or.inr (Or.inr (Or.inl
          ⟨lm, rfl, hrm, hc, by simp [predictText, hlk, hrm, hc]⟩))
      · cases hom : oldModelOf db req lm with
        | none =>
          exact Or.inr (Or.inr (Or.inr (Or.inl
            ⟨lm, rfl, hrm, hc, hom, by simp [predictText, hlk, hrm, hc, hom]⟩)))
        | some old =>
          exact Or.inr (Or.inr (Or.inr (Or.inr
            ⟨lm, old, rfl, hrm, hc, hom,
              by simp [predictText, hlk, hrm, hc, hom]⟩)))


theorem isCommandLike_eq_true_iff (c : String) :
    isCommandLike c = true ↔
      ∃ p ∈ commandMarkers, strStartsWith c p = true ∧ 2 < c.length := by
  rw [isCommandLike, List.any_eq_true]
  simp [Bool.and_eq_true, decide_eq_true_eq]

theorem isCommandLike_eq_false_iff (c : String) :
    isCommandLike c = false ↔
      ¬ ∃ p ∈ commandMarkers, strStartsWith c p = true ∧ 2 < c.length := by
  rw [← isCommandLike_eq_true_iff]
  constructor
  · intro hf ht
    rw [hf] at ht
    cases ht
  · intro hn
    cases hb : isCommandLike c with
    | false => rfl
    | true => exact absurd hb hn

theorem mem_corpusOf (db : Db) (req : Request) (c : String) :
    c ∈ corpusOf db req ↔
      (∃ m ∈ db.messages, msgMatches req m = true ∧ m.content = c) ∧
        c ≠ "" ∧ isCommandLike c = false := by
  constructor
  · intro hc
    obtain ⟨hc2, h3⟩ := List.mem_filter.mp hc
    obtain ⟨hc1, h2⟩ := List.mem_filter.mp hc2
    obtain ⟨m, hm1, hmc⟩ := List.mem_map.mp hc1
    obtain ⟨hmmem, hq1⟩ := List.mem_filter.mp hm1
    rw [Bool.and_eq_true] at hq1
    refine ⟨⟨m, hmmem, hq1.1, hmc⟩, bne_iff_ne.mp h2, ?_⟩
    simpa using h3
  · rintro ⟨⟨m, hmmem, hmm, hmc⟩, h2, h3⟩
    refine List.mem_filter.mpr ⟨List.mem_filter.mpr
      ⟨List.mem_map.mpr ⟨m, List.mem_filter.mpr ⟨hmmem, ?_⟩, hmc⟩, ?_⟩, ?_⟩
    · rw [Bool.and_eq_true]
      refine ⟨hmm, bne_iff_ne.mpr ?_⟩
      rw [hmc]
      exact h2
    · exact bne_iff_ne.mpr h2
    · simp [h3]

/-! Claim theorems. -/

/-- C9: Temperature clamping is division-safe: for every temperature `t`
(including `t = 0` and negative `t`) the sampler's scaling divisor
`max(t, 1e-6)` is strictly positive and nonzero, so the rescaling of
log-probabilities by `1/t` inside `sampleFromPrediction` is a well-defined
division on every call — the divide-by-zero case is unreachable. -/
theorem temperature_divisor_pos :
    ∀ t : ℚ, 0 < sampleDivisor t ∧ sampleDivisor t ≠ 0 ∧
      ∀ logit : ℚ, sampleScale t logit = logit / sampleDivisor t := by
  intro t
  have h6 : (0 : ℚ) < 1 / 1000000 := by norm_num
  have hpos : 0 < sampleDivisor t :=
    lt_of_lt_of_le h6 (le_max_right t (1 / 1000000))
  exact ⟨hpos, ne_of_gt hpos, fun _ => rfl⟩

/-- C5 counterexample: the encoder keeps the first `window` tokens
(`slice(0, maxlen)`), not the suffix: on `["a", "b", "c"]` with window 2
the retained context is `["a", "b"]` and not the suffix `["b", "c"]`
(likewise for the v1 `padSequences` on characters). -/
theorem pad_truncation_direction_cex :
    pad 2 ["a", "b", "c"] = ["a", "b"] ∧
    pad 2 ["a", "b", "c"] ≠ List.drop 1 ["a", "b", "c"] ∧
    padSequences 2 ['a', 'b', 'c'] = ['a', 'b'] ∧
    padSequences 2 ['a', 'b', 'c'] ≠ List.drop 1 ['a', 'b', 'c'] := by
  refine ⟨by decide, by decide, by decide, by decide⟩

/-- C5 (amended): for every token sequence strictly longer than the window
the Sequence Encoder truncates it to exactly the window length keeping the
PREFIX (the excess is removed from the end, so generation continues on the
retained head of the sequence); sequences shorter than the window are padded
at the end with the reserved pad token (`'\0'` for the word-level `pad`,
`' '` for the v1 `padSequences`) to exactly the window length. -/
theorem pad_truncation_policy (padSize : Nat) (str : List String)
    (maxlen : Nat) (s : List Char) :
    (padSize ≤ str.length → pad padSize str = str.take padSize) ∧
    (str.length < padSize →
      pad padSize str = str ++ List.replicate (padSize - str.length) nulTok) ∧
    (pad padSize str).length = padSize ∧
    (maxlen ≤ s.length → padSequences maxlen s = s.take maxlen) ∧
    (s.length < maxlen →
      padSequences maxlen s = s ++ List.replicate (maxlen - s.length) ' ') ∧
    (padSequences maxlen s).length = maxlen := by
  refine ⟨?_, ?_, ?_, ?_, ?_, ?_⟩
  · intro h; rw [pad, if_pos h]
  · intro h; rw [pad, if_neg (by omega)]
  · by_cases h : padSize ≤ str.length
    · rw [pad, if_pos h, List.length_take]; omega
    · rw [pad, if_neg (by omega), List.length_append, List.length_replicate]
      omega
  · intro h; rw [padSequences, if_neg (by omega)]
  · intro h; rw [padSequences, if_pos h]
  · by_cases h : s.length < maxlen
    · rw [padSequences, if_pos h, List.length_append, List.length_replicate]
      omega
    · rw [padSequences, if_neg h, List.length_take]; omega

/-- C5 witness: the amended policy evaluated at concrete sequences. -/
theorem pad_truncation_policy_witness :
    (2 ≤ (["a", "b", "c"] : List String).length ∧
      pad 2 ["a", "b", "c"] = (["a", "b", "c"] : List String).take 2) ∧
    ((["x"] : List String).length < 3 ∧
      pad 3 ["x"] = ["x"] ++ List.replicate 2 nulTok) ∧
    ((['a', 'b', 'c'] : List Char).length < 5 ∧
      padSequences 5 ['a', 'b', 'c'] =
        ['a', 'b', 'c'] ++ List.replicate 2 ' ') :=
  ⟨⟨by decide, (pad_truncation_policy 2 ["a", "b", "c"] 0 []).1 (by decide)⟩,
    ⟨by decide, (pad_truncation_policy 3 ["x"] 0 []).2.1 (by decide)⟩,
    ⟨by decide,
      (pad_truncation_policy 0 [] 5 ['a', 'b', 'c']).2.2.2.2.1 (by decide)⟩⟩

/-- C4 counterexample: on the corpus "abb" the built vocabulary is
`['a', 'b']` (first-appearance order, although 'b' is the more frequent
token) and `charToIndex['b']` is 2 — the last occurrence position — which
does not lie in `0..V-1` for `V = 2`; no in-range index exists for 'b'. -/
theorem vocabulary_dense_index_cex :
    (buildVocabulary ['a', 'b', 'b']).vocabulary = ['a', 'b'] ∧
    alookup (buildVocabulary ['a', 'b', 'b']).charToIndex 'b' = some 2 ∧
    ¬ ∃ i,
        alookup (buildVocabulary ['a', 'b', 'b']).charToIndex 'b' = some i ∧
        i < (buildVocabulary ['a', 'b', 'b']).vocabulary.length := by
  refine ⟨by decide, by decide, ?_⟩
  rintro ⟨i, hi, hlt⟩
  have h2 : alookup (buildVocabulary ['a', 'b', 'b']).charToIndex 'b' =
      some 2 := by decide
  have hi2 : (2 : Nat) = i := Option.some.inj (h2.symm.trans hi)
  subst hi2
  have hlen : (buildVocabulary ['a', 'b', 'b']).vocabulary.length = 2 := by
    decide
  rw [hlen] at hlt
  exact absurd hlt (by decide)

/-- C4 (amended): `buildVocabulary` keeps every distinct character of the
corpus in first-appearance order — the vocabulary equals the reference
first-occurrence dedup of the text — with no frequency ranking and no top-V
cap; `charToIndex[c]` is the position of the LAST occurrence of `c` in the
text (the maximal index holding `c`, bounded by the text length rather than
by the vocabulary size), and the inverse table is consistent:
`indexToChar[charToIndex[c]] = c` for every vocabulary character. -/
theorem vocabulary_inverse_consistency (text : List Char) :
    (buildVocabulary text).vocabulary = dedupFirst text ∧
    (∀ c, c ∈ (buildVocabulary text).vocabulary ↔ c ∈ text) ∧
    (∀ c, c ∈ (buildVocabulary text).vocabulary →
      ∃ i, alookup (buildVocabulary text).charToIndex c = some i ∧
        i < text.length ∧ text.get? i = some c ∧
        (∀ j, text.get? j = some c → j ≤ i) ∧
        alookup (buildVocabulary text).indexToChar i = some c) := by
  have hmem : ∀ c, c ∈ (buildVocabulary text).vocabulary ↔ c ∈ text := by
    intro c
    rw [buildVocabulary, vocab_fold_mem]
    simp [List.enum_map_snd]
  refine ⟨buildVocabulary_vocab_eq text, hmem, ?_⟩
  intro c hc
  have hct : c ∈ text.enum.map Prod.snd := by
    rw [List.enum_map_snd]
    exact (hmem c).mp hc
  have hpw : (text.enum.map Prod.fst).Pairwise (· < ·) := by
    rw [List.enum_map_fst]
    exact List.pairwise_lt_range _
  obtain ⟨i, hi, hpair, hmax⟩ :=
    charToIndex_fold_last text.enum ⟨[], [], []⟩ c hpw hct
  have hget : text.get? i = some c := by
    rw [List.get?_eq_getElem?]
    exact List.mk_mem_enum_iff_getElem?.mp hpair
  have hlt : i < text.length := by
    have hfst : i ∈ text.enum.map Prod.fst := List.mem_map_of_mem Prod.fst hpair
    rw [List.enum_map_fst] at hfst
    exact List.mem_range.mp hfst
  have hic : alookup (buildVocabulary text).indexToChar i = some c :=
    indexToChar_fold_mem text.enum ⟨[], [], []⟩ i c hpair
      (by rw [List.enum_map_fst]; exact List.nodup_range _)
  refine ⟨i, hi, hlt, hget, ?_, hic⟩
  intro j hj
  apply hmax
  rw [List.mk_mem_enum_iff_getElem?, ← List.get?_eq_getElem?]
  exact hj

/-- C4 witness: the amended vocabulary property at the corpus "abb" and the
character 'b'. -/
theorem vocabulary_inverse_consistency_witness :
    (buildVocabulary ['a', 'b', 'b']).vocabulary = dedupFirst ['a', 'b', 'b'] ∧
    'b' ∈ (buildVocabulary ['a', 'b', 'b']).vocabulary ∧
    ∃ i, alookup (buildVocabulary ['a', 'b', 'b']).charToIndex 'b' = some i ∧
      i < (['a', 'b', 'b'] : List Char).length ∧
      (['a', 'b', 'b'] : List Char).get? i = some 'b' ∧
      (∀ j, (['a', 'b', 'b'] : List Char).get? j = some 'b' → j ≤ i) ∧
      alookup (buildVocabulary ['a', 'b', 'b']).indexToChar i = some 'b' :=
  ⟨(vocabulary_inverse_consistency ['a', 'b', 'b']).1, by decide,
    (vocabulary_inverse_consistency ['a', 'b', 'b']).2.2 'b' (by decide)⟩

/-- C3: Round-trip: for every trained predictor (built backend model and
tokenized data present) `export` succeeds, and importing its result into a
fresh `RnnTextPredictor` restores exactly the same state — the identical
`tokenizedData` and the model rebuilt from the same serialized artifacts —
so the restored instance produces the identical next-token distribution for
any fixed context under any fixed backend decode semantics. -/
theorem export_import_roundtrip (p : RnnPredictor) (m : BackendModel)
    (td : TokenizedData) (h1 : p.model = some m) (h2 : m.built = true)
    (h3 : p.tokenizedData = some td) :
    ∃ em, rnnExport p = some em ∧ rnnImport em = ⟨some m, some td⟩ ∧
      ∀ (f : BackendModel → TokenizedData → List Nat → List ℚ)
        (ctx : List Nat),
        nextTokenDistUnder f (rnnImport em) ctx =
          nextTokenDistUnder f p ctx := by
  obtain ⟨topo, specs, dataW, built⟩ := m
  have hb : built = true := h2
  subst hb
  refine ⟨⟨topo, specs, dataW, td⟩, ?_, ?_, ?_⟩
  · simp [rnnExport, h1, h3, saveArtifacts]
  · simp [rnnImport, loadLayersModel, fromMemory]
  · intro f ctx
    simp [nextTokenDistUnder, rnnImport, loadLayersModel, fromMemory, h1, h3]

/-- C3 witness: the round-trip property at a concrete trained predictor. -/
theorem export_import_roundtrip_witness :
    predC.model = some bmC ∧ bmC.built = true ∧
    predC.tokenizedData = some tdC ∧
    ∃ em, rnnExport predC = some em ∧ rnnImport em = ⟨some bmC, some tdC⟩ ∧
      ∀ (f : BackendModel → TokenizedData → List Nat → List ℚ)
        (ctx : List Nat),
        nextTokenDistUnder f (rnnImport em) ctx =
          nextTokenDistUnder f predC ctx :=
  ⟨rfl, rfl, rfl, export_import_roundtrip predC bmC tdC rfl rfl rfl⟩

/-- C1: Staleness decision: when a model row and a newest known message
exist for the author, `predictText` reuses the cached artifact (generates
from cache) exactly when it is NOT the case that the artifact's
`last_message_id` differs from the newest known message id AND strictly
more than 5000 messages are newer than the artifact's training time; when
that staleness condition does hold the cached artifact is abandoned and the
retrain path runs (training executes whenever the filtered corpus is
non-empty). -/
theorem staleness_decision (db : Db) (req : Request) (row : ModelRow)
    (lm : MessageRow) (h1 : findDbModel db req = some row)
    (h2 : findLastKnown db req = some lm) :
    ((predictText db req).result = .generated true ↔
      ¬(row.last_message_id ≠ lm.message_id ∧
        5000 < staleCount db req row)) ∧
    ((row.last_message_id ≠ lm.message_id ∧ 5000 < staleCount db req row) →
      corpusOf db req ≠ [] →
      TraceEvent.train ∈ (predictText db req).trace) := by
  have hiff : isStaleRow db req lm row = true ↔
      (row.last_message_id ≠ lm.message_id ∧
        5000 < staleCount db req row) := by
    simp [isStaleRow, Bool.and_eq_true, bne_iff_ne, decide_eq_true_eq]
  cases hb : isStaleRow db req lm row with
  | false =>
    have hA : ¬(row.last_message_id ≠ lm.message_id ∧
        5000 < staleCount db req row) := by
      intro hA
      have := hiff.mpr hA
      rw [hb] at this
      cases this
    have hres : resolvedModel db req lm = some row := by
      unfold resolvedModel
      rw [h1]
      simp [hb]
    have hpt : predictText db req =
        ⟨.generated true, db, [.importModel, .generate]⟩ := by
      simp [predictText, h2, hres]
    rw [hpt]
    exact ⟨⟨fun _ => hA, fun _ => rfl⟩, fun hA' _ => absurd hA' hA⟩
  | true =>
    have hA : row.last_message_id ≠ lm.message_id ∧
        5000 < staleCount db req row := hiff.mp hb
    have hres : resolvedModel db req lm = none := by
      unfold resolvedModel
      rw [h1]
      simp [hb]
    by_cases hc : corpusOf db req = []
    · have hpt : predictText db req = ⟨.noData, db, []⟩ := by
        simp [predictText, h2, hres, hc]
      rw [hpt]
      refine ⟨⟨fun habs => ?_, fun hnA => absurd hA hnA⟩,
        fun _ hc' => absurd hc hc'⟩
      simp at habs
    · cases hom : oldModelOf db req lm with
      | none =>
        have hpt : predictText db req =
            ⟨.generated false,
              ⟨db.messages, db.models ++ [mkNewRow db req lm]⟩,
              [.train, .exportModel, .createRow (mkNewRow db req lm),
                .generate]⟩ := by
          simp [predictText, h2, hres, hc, hom]
        rw [hpt]
        refine ⟨⟨fun habs => by simp at habs,
          fun hnA => absurd hA hnA⟩, fun _ _ => ?_⟩
        exact List.mem_cons_self _ _
      | some old =>
        have hpt : predictText db req =
            ⟨.generated false,
              ⟨db.messages,
                (db.models ++ [mkNewRow db req lm]).filter
                  (fun r => r.id != old.id)⟩,
              [.train, .exportModel, .createRow (mkNewRow db req lm),
                .destroyRow old.id, .generate]⟩ := by
          simp [predictText, h2, hres, hc, hom]
        rw [hpt]
        refine ⟨⟨fun habs => by simp at habs,
          fun hnA => absurd hA hnA⟩, fun _ _ => ?_⟩
        exact List.mem_cons_self _ _

/-- C1 witness: the staleness decision evaluated on a state holding a fresh
cached model (matching watermark, one message). -/
theorem staleness_decision_witness :
    findDbModel dbA reqA = some rowA ∧
    findLastKnown dbA reqA = some msgA ∧
    (((predictText dbA reqA).result = .generated true ↔
      ¬(rowA.last_message_id ≠ msgA.message_id ∧
        5000 < staleCount dbA reqA rowA)) ∧
    ((rowA.last_message_id ≠ msgA.message_id ∧
        5000 < staleCount dbA reqA rowA) →
      corpusOf dbA reqA ≠ [] →
      TraceEvent.train ∈ (predictText dbA reqA).trace)) :=
  ⟨by decide, by decide,
    staleness_decision dbA reqA rowA msgA (by decide) (by decide)⟩

/-- C10: Cache-hit frame property: when a model row exists and is not judged
stale (its `last_message_id` equals the newest known message id, or at most
5000 messages are newer than its training time), `predictText` leaves the
whole database — in particular the `models` table — unchanged and its trace
is exactly an import followed by generation: no row is created or
destroyed. -/
theorem cache_hit_frame (db : Db) (req : Request) (row : ModelRow)
    (lm : MessageRow) (h1 : findDbModel db req = some row)
    (h2 : findLastKnown db req = some lm)
    (h3 : row.last_message_id = lm.message_id ∨
      staleCount db req row ≤ 5000) :
    (predictText db req).db = db ∧
    (predictText db req).trace = [.importModel, .generate] := by
  have hb : isStaleRow db req lm row = false := by
    rcases h3 with h | h
    · simp [isStaleRow, h]
    · have hn : ¬(5000 < staleCount db req row) := by omega
      simp [isStaleRow, decide_eq_false hn]
  have hres : resolvedModel db req lm = some row := by
    unfold resolvedModel
    rw [h1]
    simp [hb]
  have hpt : predictText db req =
      ⟨.generated true, db, [.importModel, .generate]⟩ := by
    simp [predictText, h2, hres]
  rw [hpt]
  exact ⟨rfl, rfl⟩

/-- C10 witness: the cache-hit frame property on the concrete fresh-model
state. -/
theorem cache_hit_frame_witness :
    findDbModel dbA reqA = some rowA ∧
    findLastKnown dbA reqA = some msgA ∧
    (rowA.last_message_id = msgA.message_id ∨
      staleCount dbA reqA rowA ≤ 5000) ∧
    ((predictText dbA reqA).db = dbA ∧
      (predictText dbA reqA).trace = [.importModel, .generate]) :=
  ⟨by decide, by decide, Or.inl (by decide),
    cache_hit_frame dbA reqA rowA msgA (by decide) (by decide)
      (Or.inl (by decide))⟩

/-- C6 counterexample: a request whose author's filtered corpus is empty
(the only message is command-like) but whose cached model row is fresh does
NOT fail with a no-data error — `predictText` generates from the cached
artifact, refuting the claim that every request with an empty filtered
corpus returns the no-data failure. -/
theorem empty_corpus_cache_hit_cex :
    corpusOf dbB reqB = [] ∧
    (predictText dbB reqB).result = .generated true ∧
    (predictText dbB reqB).result ≠ .noData := by
  refine ⟨by decide, by decide, by decide⟩

/-- C6 (amended): whenever the author has no stored messages at all, or no
usable (current, non-stale) artifact is available and the filtered corpus is
empty, `predictText` returns the no-data failure, leaves the database —
in particular the `models` table — unchanged, and performs no model
lifecycle action at all (when a fresh cached artifact exists, generation
instead proceeds from the cache even though the filtered corpus is empty).
-/
theorem no_data_frame (db : Db) (req : Request)
    (h : findLastKnown db req = none ∨
      ∃ lm, findLastKnown db req = some lm ∧
        resolvedModel db req lm = none ∧ corpusOf db req = []) :
    (predictText db req).result = .noData ∧
    (predictText db req).db = db ∧ (predictText db req).trace = [] := by
  rcases h with h | ⟨lm, hlm, hres, hc⟩
  · have hpt : predictText db req = ⟨.noData, db, []⟩ := by
      simp [predictText, h]
    rw [hpt]
    exact ⟨rfl, rfl, rfl⟩
  · have hpt : predictText db req = ⟨.noData, db, []⟩ := by
      simp [predictText, hlm, hres, hc]
    rw [hpt]
    exact ⟨rfl, rfl, rfl⟩

/-- C6 witness: the amended no-data frame property for an author with no
stored messages. -/
theorem no_data_frame_witness :
    (findLastKnown dbEmpty reqEmpty = none ∨
      ∃ lm, findLastKnown dbEmpty reqEmpty = some lm ∧
        resolvedModel dbEmpty reqEmpty lm = none ∧
        corpusOf dbEmpty reqEmpty = []) ∧
    ((predictText dbEmpty reqEmpty).result = .noData ∧
      (predictText dbEmpty reqEmpty).db = dbEmpty ∧
      (predictText dbEmpty reqEmpty).trace = []) :=
  ⟨Or.inl (by decide),
    no_data_frame dbEmpty reqEmpty (Or.inl (by decide))⟩

/-- C7: `predictText` never calls `rnn.dispose()`: no execution path of the
orchestrator emits a dispose event — on success, error and failure paths
alike the predictor instance and its backend tensors are left to the
runtime, contradicting the disposal step the specification describes. -/
theorem predictText_never_disposes :
    ∀ (db : Db) (req : Request),
      (predictText db req).trace.contains TraceEvent.dispose = false := by
  intro db req
  rcases predictText_branches db req with
    ⟨_, hpt⟩ | ⟨lm, row, _, _, hpt⟩ | ⟨lm, _, _, _, hpt⟩ |
    ⟨lm, _, _, _, _, hpt⟩ | ⟨lm, old, _, _, _, _, hpt⟩ <;>
    rw [hpt] <;> rfl


/-- C8: Corpus filter: a stored message content belongs to the retraining
corpus if and only if some matching message row carries it, it is non-empty,
and it is NOT the case that it both starts with one of the fixed marker
symbols `!, ?, -, +, @, #, $, %, &` and has length strictly greater than 2;
in particular a one- or two-character message beginning with a marker symbol
is kept. -/
theorem corpus_filter_iff (db : Db) (req : Request) :
    (∀ c, c ∈ corpusOf db req ↔
      ((∃ m ∈ db.messages, msgMatches req m = true ∧ m.content = c) ∧
        c ≠ "" ∧
        ¬ ∃ p ∈ commandMarkers, strStartsWith c p = true ∧ 2 < c.length)) ∧
    (∀ m ∈ db.messages, msgMatches req m = true → m.content ≠ "" →
      m.content.length ≤ 2 → m.content ∈ corpusOf db req) := by
  constructor
  · intro c
    rw [mem_corpusOf, isCommandLike_eq_false_iff]
  · intro m hm hmm hne hlen
    rw [mem_corpusOf]
    refine ⟨⟨m, hm, hmm, rfl⟩, hne, ?_⟩
    rw [isCommandLike_eq_false_iff]
    rintro ⟨p, _, _, hlt⟩
    omega

/-- C8 witness: the two-character command-marker message "!a" is kept in
the corpus. -/
theorem corpus_filter_iff_witness :
    msgF ∈ dbF.messages ∧ msgMatches reqF msgF = true ∧
    msgF.content ≠ "" ∧ msgF.content.length ≤ 2 ∧
    msgF.content ∈ corpusOf dbF reqF :=
  ⟨by decide, by decide, by decide, by decide,
    (corpus_filter_iff dbF reqF).2 msgF (by decide) (by decide) (by decide)
      (by decide)⟩

/-- C2: Replacement ordering: for every request targeting a specific author,
every `destroyRow` in the `predictText` trace is strictly preceded by a
`createRow` (the old row is destroyed only after the create completed), and
if the author initially has at least one model row then every intermediate
`models`-table state along the trace still has at least one row for the
author. -/
theorem replacement_ordering (db : Db) (req : Request) (u : Nat)
    (h : req.userId = some u) :
    (∀ i rid, (predictText db req).trace.get? i =
        some (TraceEvent.destroyRow rid) →
      ∃ j r, j < i ∧ (predictText db req).trace.get? j =
        some (TraceEvent.createRow r)) ∧
    (db.models.any (modelMatches req) = true →
      ∀ n, (storeAfter db.models ((predictText db req).trace.take n)).any
        (modelMatches req) = true) := by
  rcases predictText_branches db req with
    ⟨_, hpt⟩ | ⟨lm, row, _, _, hpt⟩ | ⟨lm, _, _, _, hpt⟩ |
    ⟨lm, _, _, _, _, hpt⟩ | ⟨lm, old, _, _, _, hom, hpt⟩ <;> rw [hpt]
  · constructor
    · intro i rid hi
      simp [List.get?] at hi
    · intro hany n
      simpa [storeAfter, List.take_nil] using hany
  · constructor
    · intro i rid hi
      rcases i with _ | _ | i <;> simp [List.get?] at hi
    · intro hany n
      rcases n with _ | _ | n <;>
        simpa [storeAfter, applyEvent, List.take_succ_cons, List.take_zero,
          List.take_nil] using hany
  · constructor
    · intro i rid hi
      simp [List.get?] at hi
    · intro hany n
      simpa [storeAfter, List.take_nil] using hany
  · constructor
    · intro i rid hi
      rcases i with _ | _ | _ | _ | i <;> simp [List.get?] at hi
    · intro hany n
      rcases n with _ | _ | _ | _ | n <;>
        simp [storeAfter, applyEvent, List.take_succ_cons, List.take_zero,
          List.take_nil, List.any_append, hany]
  · have hmmNew : modelMatches req (mkNewRow db req lm) = true := by
      simp [modelMatches, mkNewRow, h]
    have hmemOld : old ∈ db.models :=
      (findDbModel_mem db req old (oldModelOf_eq db req lm old hom).1).1
    have hltOld : old.id < nextId db.models :=
      mem_id_lt_nextId db.models old hmemOld
    have hne : ((mkNewRow db req lm).id != old.id) = true := by
      simp only [mkNewRow, bne_iff_ne, ne_eq]
      omega
    have hmemNew : mkNewRow db req lm ∈
        (db.models ++ [mkNewRow db req lm]).filter
          (fun r => r.id != old.id) :=
      List.mem_filter.mpr
        ⟨List.mem_append_right _ (List.mem_singleton.mpr rfl), hne⟩
    constructor
    · intro i rid hi
      rcases i with _ | _ | _ | _ | _ | i <;> simp [List.get?] at hi
      exact ⟨2, mkNewRow db req lm, by omega, by simp [List.get?]⟩
    · intro hany n
      rcases n with _ | _ | _ | _ | _ | n
      · simpa [storeAfter] using hany
      · simpa [storeAfter, applyEvent, List.take_succ_cons, List.take_zero]
          using hany
      · simpa [storeAfter, applyEvent, List.take_succ_cons, List.take_zero]
          using hany
      · simp [storeAfter, applyEvent, List.take_succ_cons, List.take_zero,
          List.any_append, hany]
      · simp only [List.take_succ_cons, List.take_zero, storeAfter,
          List.foldl_cons, List.foldl_nil, applyEvent]
        exact List.any_eq_true.mpr ⟨mkNewRow db req lm, hmemNew, hmmNew⟩
      · rw [List.take_of_length_le
          (by simp only [List.length_cons, List.length_nil]; omega)]
        simp only [storeAfter, List.foldl_cons, List.foldl_nil, applyEvent]
        exact List.any_eq_true.mpr ⟨mkNewRow db req lm, hmemNew, hmmNew⟩

/-- C2 witness: the ordering and availability property on the concrete
fresh-model state. -/
theorem replacement_ordering_witness :
    reqA.userId = some 5 ∧
    ((∀ i rid, (predictText dbA reqA).trace.get? i =
        some (TraceEvent.destroyRow rid) →
      ∃ j r, j < i ∧ (predictText dbA reqA).trace.get? j =
        some (TraceEvent.createRow r)) ∧
    (dbA.models.any (modelMatches reqA) = true →
      ∀ n, (storeAfter dbA.models ((predictText dbA reqA).trace.take n)).any
        (modelMatches reqA) = true)) :=
  ⟨rfl, replacement_ordering dbA reqA 5 rfl⟩

end ImpostorBot
